import Mathlib

/-!
Verification of the evidence-db core (src/App.jsx): the in-memory relational
data model (Database / Investigation / Evidence / Entry), its repository
operations (create / partial update / cascading delete / entry append), the
derived filtered-and-sorted investigation view, the CSV flattening and
escaping, the JSON export/import transcoder, and the persistence-gateway
loader.  JavaScript records are shallowly embedded as Lean structures;
millisecond timestamps are Nat; `updatedAt` is `Option Nat` because imported
records may lack the field and the source guards every read of it with
JavaScript truthiness (the `x || y` idiom).  `Array.prototype.sort` with a
numeric comparator is modelled by a stable comparison sort.  External
capabilities (uuid generation, Date.now, Date.toISOString, JSON text
parsing) are passed as explicit arguments.
-/

namespace EvidenceDB

/-- An attachment on a log entry: a pair of label and url strings
(src/App.jsx line 26). -/
structure Attachment where
  label : String
  url : String
deriving DecidableEq

/-- An Entry: one timestamped log line owned by an Evidence
(src/App.jsx line 26, constructed in addEntry line 393). -/
structure Entry where
  id : String
  author : String
  body : String
  timestamp : Nat
  attachments : List Attachment
deriving DecidableEq

/-- An Investigation record (src/App.jsx line 24, constructed in
createInvestigation line 338). -/
structure Investigation where
  id : String
  title : String
  caseNumber : String
  description : String
  status : String
  tags : List String
  createdAt : Nat
  updatedAt : Option Nat
deriving DecidableEq

/-- An Evidence record (src/App.jsx line 25, constructed in
createEvidence line 368). -/
structure Evidence where
  id : String
  investigationId : String
  title : String
  type : String
  summary : String
  tags : List String
  entries : List Entry
  createdAt : Nat
  updatedAt : Option Nat
deriving DecidableEq

/-- The root Database aggregate (src/App.jsx lines 11 and 24-26). -/
structure Database where
  version : Nat
  investigations : List Investigation
  evidence : List Evidence
deriving DecidableEq

/-- The payload produced by the investigation form (src/App.jsx lines
123-132): the five updatable fields of an Investigation. -/
structure InvestigationData where
  title : String
  caseNumber : String
  description : String
  status : String
  tags : List String
deriving DecidableEq

/-- The payload produced by the evidence form (src/App.jsx lines 185-193). -/
structure EvidenceData where
  title : String
  type : String
  summary : String
  tags : List String
deriving DecidableEq

/-- The payload produced by the entry form (src/App.jsx lines 251-257). -/
structure EntryData where
  author : String
  body : String
  attachments : List Attachment
deriving DecidableEq

/-- A partial-field update for an Investigation: the JavaScript object
spread `\x7b ...i, ...data, updatedAt: now \x7d` (src/App.jsx line 349)
overrides exactly the keys present in `data`; callers only ever pass
subsets of the form payload, so a patch is an optional value per
updatable field. -/
structure InvestigationPatch where
  title : Option String
  caseNumber : Option String
  description : Option String
  status : Option String
  tags : Option (List String)
deriving DecidableEq

/-- A partial-field update for an Evidence (src/App.jsx line 379). -/
structure EvidencePatch where
  title : Option String
  type : Option String
  summary : Option String
  tags : Option (List String)
deriving DecidableEq

/-- createInvestigation (src/App.jsx lines 336-343): builds
`\x7b id: uuid(), createdAt: now, updatedAt: now, ...data \x7d` and prepends it
to the investigations sequence.  The uuid and clock are external
capabilities passed as arguments. -/
def createInvestigation (db : Database) (newId : String) (now : Nat)
    (d : InvestigationData) : Database :=
  { db with investigations :=
      ⟨newId, d.title, d.caseNumber, d.description, d.status, d.tags, now, some now⟩
        :: db.investigations }

/-- The record produced for a matching id by updateInvestigation
(src/App.jsx line 349): `\x7b ...i, ...data, updatedAt: now \x7d`. -/
def mergeInvestigation (i : Investigation) (p : InvestigationPatch) (now : Nat) :
    Investigation :=
  { i with
      title := p.title.getD i.title
      caseNumber := p.caseNumber.getD i.caseNumber
      description := p.description.getD i.description
      status := p.status.getD i.status
      tags := p.tags.getD i.tags
      updatedAt := some now }

/-- updateInvestigation (src/App.jsx lines 345-353): maps over the
investigations sequence, merging the patch into every record whose id
matches. -/
def updateInvestigation (db : Database) (id : String) (p : InvestigationPatch)
    (now : Nat) : Database :=
  { db with investigations :=
      db.investigations.map (fun i => if i.id = id then mergeInvestigation i p now else i) }

/-- deleteInvestigation, confirmed branch (src/App.jsx lines 355-364): one
state update that filters the investigation out of `investigations` and
filters every Evidence referencing it out of `evidence`. -/
def deleteInvestigation (db : Database) (id : String) : Database :=
  { db with
      investigations := db.investigations.filter (fun i => !(i.id = id : Bool)),
      evidence := db.evidence.filter (fun e => !(e.investigationId = id : Bool)) }

/-- createEvidence (src/App.jsx lines 366-373). -/
def createEvidence (db : Database) (invId : String) (newId : String) (now : Nat)
    (d : EvidenceData) : Database :=
  { db with evidence :=
      ⟨newId, invId, d.title, d.type, d.summary, d.tags, [], now, some now⟩
        :: db.evidence }

/-- The record produced for a matching id by updateEvidence
(src/App.jsx line 379). -/
def mergeEvidence (e : Evidence) (p : EvidencePatch) (now : Nat) : Evidence :=
  { e with
      title := p.title.getD e.title
      type := p.type.getD e.type
      summary := p.summary.getD e.summary
      tags := p.tags.getD e.tags
      updatedAt := some now }

/-- updateEvidence (src/App.jsx lines 375-383). -/
def updateEvidence (db : Database) (id : String) (p : EvidencePatch) (now : Nat) :
    Database :=
  { db with evidence :=
      db.evidence.map (fun e => if e.id = id then mergeEvidence e p now else e) }

/-- deleteEvidence, confirmed branch (src/App.jsx lines 385-389). -/
def deleteEvidence (db : Database) (id : String) : Database :=
  { db with evidence := db.evidence.filter (fun e => !(e.id = id : Bool)) }

/-- addEntry (src/App.jsx lines 391-400): builds
`\x7b id: uuid(), timestamp: now, ...data \x7d` and prepends it to the entries
of the Evidence whose id matches, refreshing that record's updatedAt. -/
def addEntry (db : Database) (evidenceId : String) (d : EntryData)
    (newId : String) (now : Nat) : Database :=
  { db with evidence :=
      db.evidence.map (fun e =>
        if e.id = evidenceId then
          { e with entries := ⟨newId, d.author, d.body, now, d.attachments⟩ :: e.entries,
                   updatedAt := some now }
        else e) }

/-! ### Derived view: the filtered investigation list -/

/-- JavaScript `String.prototype.toLowerCase`, modelled character-wise. -/
def toLowerStr (s : String) : String := String.mk (s.data.map Char.toLower)

/-- JavaScript `String.prototype.includes`: the needle occurs as a
contiguous substring of the haystack. -/
def containsSub (hay needle : String) : Bool := decide (needle.data <:+: hay.data)

/-- The status filter of the investigation list (src/App.jsx line 325):
the sentinel filter "All" admits everything, otherwise the record's
status must equal the filter exactly. -/
def matchesStatus (statusFilter : String) (i : Investigation) : Bool :=
  if statusFilter = "All" then true else i.status = statusFilter

/-- The query filter of the investigation list (src/App.jsx lines 326-332):
the query is lowercased once; an empty query admits everything; otherwise
the record matches if any of title, caseNumber, description or a tag
(falsy fields dropped by `.filter(Boolean)`) contains the lowercased query
as a substring after lowercasing. -/
def matchesQuery (query : String) (i : Investigation) : Bool :=
  let q := toLowerStr query
  if q = "" then true
  else (([i.title, i.caseNumber, i.description] ++ i.tags).filter
      (fun f => !f.isEmpty)).any (fun f => containsSub (toLowerStr f) q)

/-- The sort key of the comparator
`(b.updatedAt || b.createdAt) - (a.updatedAt || a.createdAt)`
(src/App.jsx line 333): JavaScript `||` falls through to createdAt when
updatedAt is absent or 0 (both falsy). -/
def sortKeyInv (i : Investigation) : Nat :=
  match i.updatedAt with
  | some u => if u = 0 then i.createdAt else u
  | none => i.createdAt

/-- The ordering relation of the investigation list: descending sort key. -/
def invDescOrder (a b : Investigation) : Prop := sortKeyInv b ≤ sortKeyInv a

instance : DecidableRel invDescOrder := fun a b => Nat.decLe (sortKeyInv b) (sortKeyInv a)

/-- filteredInvestigations (src/App.jsx lines 322-334): filter by status,
then by query, then sort descending by `updatedAt || createdAt`.
`Array.prototype.sort` with this comparator is a stable comparison sort,
modelled by insertion sort. -/
def filteredInvestigations (db : Database) (statusFilter query : String) :
    List Investigation :=
  List.insertionSort invDescOrder
    ((db.investigations.filter (matchesStatus statusFilter)).filter (matchesQuery query))

/-! ### CSV export -/

/-- The quote-doubling pass of csvSafe (src/App.jsx line 75):
`String(s).replaceAll(Char.quote, two quotes)` at the character level. -/
def doubleQuotesList : List Char → List Char
  | [] => []
  | c :: cs => if c = '"' then '"' :: '"' :: doubleQuotesList cs else c :: doubleQuotesList cs

/-- The regex test of csvSafe (src/App.jsx line 74): the field contains a
double quote, a comma or a newline. -/
def needsQuotes (s : String) : Bool :=
  s.data.any (fun c => c = '"' || c = ',' || c = '\n')

/-- csvSafe (src/App.jsx lines 72-77) on string fields: double every
internal quote, then wrap in quotes exactly when the original contains a
quote, comma or newline. -/
def csvSafe (s : String) : String :=
  let out := String.mk (doubleQuotesList s.data)
  if needsQuotes s then "\"" ++ out ++ "\"" else out

/-- Inverse of the quote-doubling pass: collapse every doubled quote.
Used to state that csvSafe's escaping is lossless. -/
def undoubleList : List Char → List Char
  | [] => []
  | [c] => [c]
  | a :: b :: rest =>
    if a = '"' && b = '"' then '"' :: undoubleList rest
    else a :: undoubleList (b :: rest)

/-- The CSV header row (src/App.jsx lines 415-427). -/
def headerRow : List String :=
  ["caseNumber", "investigationTitle", "investigationStatus", "investigationTags",
   "evidenceTitle", "evidenceType", "evidenceTags", "entryTimestamp", "entryAuthor",
   "entryBody", "attachments"]

/-- The attachments cell (src/App.jsx line 444): label-colon-url pairs
joined by a pipe, a falsy label replaced by the word link. -/
def attachmentCell (en : Entry) : String :=
  String.intercalate " | "
    (en.attachments.map (fun a => (if a.label = "" then "link" else a.label) ++ ":" ++ a.url))

/-- One data row of the CSV export (src/App.jsx lines 433-445): the entry
joined with its ancestor Evidence and (possibly unresolved) Investigation.
`toISO` stands for the external `Date.prototype.toISOString`. -/
def entryRow (toISO : Nat → String) (inv : Option Investigation) (ev : Evidence)
    (en : Entry) : List String :=
  [(inv.map Investigation.caseNumber).getD "",
   (inv.map Investigation.title).getD "",
   (inv.map Investigation.status).getD "",
   String.intercalate ";" ((inv.map Investigation.tags).getD []),
   ev.title,
   ev.type,
   String.intercalate ";" ev.tags,
   toISO en.timestamp,
   en.author,
   en.body,
   attachmentCell en]

/-- The row list of exportCSV (src/App.jsx lines 414-447): the header
followed by one row per Entry, iterating evidence in order and resolving
each Evidence's parent Investigation by id. -/
def exportRows (toISO : Nat → String) (db : Database) : List (List String) :=
  headerRow :: db.evidence.flatMap (fun ev =>
    ev.entries.map
      (entryRow toISO (db.investigations.find? (fun i => i.id = ev.investigationId)) ev))

/-- The CSV text of exportCSV (src/App.jsx line 449): csvSafe every cell,
join cells with commas and rows with newlines. -/
def exportCSV (toISO : Nat → String) (db : Database) : String :=
  String.intercalate "\n" ((exportRows toISO db).map
    (fun r => String.intercalate "," (r.map csvSafe)))

/-! ### JSON values, import validation and the storage loader -/

/-- A JSON value, the result of `JSON.parse` (an external capability);
numbers are restricted to the integers the Database actually stores. -/
inductive JValue where
  | null : JValue
  | bool : Bool → JValue
  | num : Int → JValue
  | str : String → JValue
  | arr : List JValue → JValue
  | obj : List (String × JValue) → JValue

/-- JavaScript property lookup on an object's key-value list (parsed JSON
objects have unique keys). -/
def lookupField (k : String) : List (String × JValue) → Option JValue
  | [] => none
  | (k₀, v) :: rest => if k₀ = k then some v else lookupField k rest

/-- JavaScript property access `v[k]`: a value on objects that have the
key, undefined (`none`) otherwise. -/
def jGet (v : JValue) (k : String) : Option JValue :=
  match v with
  | .obj fields => lookupField k fields
  | _ => none

/-- JavaScript truthiness of a parsed JSON value. -/
def jTruthy : JValue → Bool
  | .null => false
  | .bool b => b
  | .num n => decide (n ≠ 0)
  | .str s => !s.isEmpty
  | .arr _ => true
  | .obj _ => true

/-- Whether `typeof v` is the string "object" (true for null, arrays and
objects). -/
def jTypeofIsObject : JValue → Bool
  | .null => true
  | .arr _ => true
  | .obj _ => true
  | _ => false

/-- `Array.isArray` on an optional property value. -/
def isArrOpt : Option JValue → Bool
  | some (.arr _) => true
  | _ => false

/-- The validation of importJSON (src/App.jsx lines 464-465): the parsed
value must be truthy, of typeof object, and its investigations and
evidence properties must be arrays. -/
def validateImport (v : JValue) : Bool :=
  jTruthy v && jTypeofIsObject v && isArrOpt (jGet v "investigations")
    && isArrOpt (jGet v "evidence")

/-- importJSON after parsing (src/App.jsx lines 459-473): when validation
passes the in-memory database is replaced wholesale by the parsed value;
on any failure the alert fires and the database is left as it was. -/
def importJSON (current v : JValue) : JValue :=
  if validateImport v then v else current

/-- The fresh empty database substituted by loadDB
(src/App.jsx lines 11 and 15). -/
def freshDBJ : JValue :=
  .obj [("investigations", .arr []), ("evidence", .arr []), ("version", .num 1)]

/-- loadDB (src/App.jsx lines 8-17): `parse` stands for the external
`JSON.parse`, `none` meaning it throws; the slot is the raw string in
localStorage, `none` meaning the key is absent.  A falsy (absent or
empty) slot and a parse failure both yield the fresh empty database;
otherwise the parsed value is returned verbatim with no shape check. -/
def loadDB (parse : String → Option JValue) (slot : Option String) : JValue :=
  match slot with
  | none => freshDBJ
  | some raw =>
    if raw = "" then freshDBJ
    else match parse raw with
      | some v => v
      | none => freshDBJ

/-! ### JSON encoding of the Database (the exportJSON serialization) and a
decoder witnessing that the encoding is lossless.  `JSON.stringify` omits
keys whose value is `undefined`, so an absent `updatedAt` produces no key.
`JSON.parse` of `JSON.stringify v` returning `v` itself is the JSON
library's round-trip contract, so exportJSON followed by parsing is
modelled as the identity on the encoded value. -/

/-- The JSON encoding of an Attachment. -/
def attachmentToJ (a : Attachment) : JValue :=
  .obj [("label", .str a.label), ("url", .str a.url)]

/-- The JSON encoding of an Entry. -/
def entryToJ (en : Entry) : JValue :=
  .obj [("id", .str en.id), ("author", .str en.author), ("body", .str en.body),
        ("timestamp", .num (Int.ofNat en.timestamp)),
        ("attachments", .arr (en.attachments.map attachmentToJ))]

/-- The key-value pairs contributed by an optional updatedAt: none for an
absent field, mirroring stringify dropping undefined values. -/
def updatedAtFields (u : Option Nat) : List (String × JValue) :=
  match u with
  | some n => [("updatedAt", .num (Int.ofNat n))]
  | none => []

/-- The JSON encoding of an Investigation. -/
def investigationToJ (i : Investigation) : JValue :=
  .obj ([("id", .str i.id), ("title", .str i.title), ("caseNumber", .str i.caseNumber),
         ("description", .str i.description), ("status", .str i.status),
         ("tags", .arr (i.tags.map .str)),
         ("createdAt", .num (Int.ofNat i.createdAt))] ++ updatedAtFields i.updatedAt)

/-- The JSON encoding of an Evidence. -/
def evidenceToJ (e : Evidence) : JValue :=
  .obj ([("id", .str e.id), ("investigationId", .str e.investigationId),
         ("title", .str e.title), ("type", .str e.type), ("summary", .str e.summary),
         ("tags", .arr (e.tags.map .str)),
         ("entries", .arr (e.entries.map entryToJ)),
         ("createdAt", .num (Int.ofNat e.createdAt))] ++ updatedAtFields e.updatedAt)

/-- The JSON encoding of the whole Database: the value serialized by
exportJSON (src/App.jsx lines 402-410). -/
def dbToJ (db : Database) : JValue :=
  .obj [("investigations", .arr (db.investigations.map investigationToJ)),
        ("evidence", .arr (db.evidence.map evidenceToJ)),
        ("version", .num (Int.ofNat db.version))]

/-- Decode every element of a list, failing if any element fails. -/
def decodeList (f : JValue → Option α) : List JValue → Option (List α)
  | [] => some []
  | v :: vs =>
    match f v, decodeList f vs with
    | some a, some rest => some (a :: rest)
    | _, _ => none

/-- Decode a JSON string. -/
def decodeStr : JValue → Option String
  | .str s => some s
  | _ => none

/-- Decode an Attachment from its JSON encoding. -/
def decodeAttachment : JValue → Option Attachment
  | .obj [("label", .str l), ("url", .str u)] => some ⟨l, u⟩
  | _ => none

/-- Decode an Entry from its JSON encoding. -/
def decodeEntry : JValue → Option Entry
  | .obj [("id", .str id), ("author", .str au), ("body", .str bo),
          ("timestamp", .num (.ofNat ts)), ("attachments", .arr atts)] =>
    match decodeList decodeAttachment atts with
    | some atts₀ => some ⟨id, au, bo, ts, atts₀⟩
    | none => none
  | _ => none

/-- Decode an optional updatedAt from the trailing key-value pairs. -/
def decodeUpdatedAt : List (String × JValue) → Option (Option Nat)
  | [] => some none
  | [("updatedAt", .num (.ofNat u))] => some (some u)
  | _ => none

/-- Decode an Investigation from its JSON encoding. -/
def decodeInvestigation : JValue → Option Investigation
  | .obj (("id", .str id) :: ("title", .str t) :: ("caseNumber", .str cn)
      :: ("description", .str d) :: ("status", .str st) :: ("tags", .arr tg)
      :: ("createdAt", .num (.ofNat ca)) :: rest) =>
    match decodeList decodeStr tg, decodeUpdatedAt rest with
    | some tags, some upd => some ⟨id, t, cn, d, st, tags, ca, upd⟩
    | _, _ => none
  | _ => none

/-- Decode an Evidence from its JSON encoding. -/
def decodeEvidence : JValue → Option Evidence
  | .obj (("id", .str id) :: ("investigationId", .str ii) :: ("title", .str t)
      :: ("type", .str ty) :: ("summary", .str su) :: ("tags", .arr tg)
      :: ("entries", .arr ens) :: ("createdAt", .num (.ofNat ca)) :: rest) =>
    match decodeList decodeStr tg, decodeList decodeEntry ens, decodeUpdatedAt rest with
    | some tags, some entries, some upd => some ⟨id, ii, t, ty, su, tags, entries, ca, upd⟩
    | _, _, _ => none
  | _ => none

/-- Decode a Database from its JSON encoding; this is the deep-equality
companion of `dbToJ`: a decodable value determines the structured
database it denotes. -/
def jToDb : JValue → Option Database
  | .obj [("investigations", .arr is), ("evidence", .arr es),
          ("version", .num (.ofNat ver))] =>
    match decodeList decodeInvestigation is, decodeList decodeEvidence es with
    | some is₀, some es₀ => some ⟨ver, is₀, es₀⟩
    | _, _ => none
  | _ => none

/-! ### Reachable database states -/

/-- The empty database a first session starts from (src/App.jsx line 11). -/
def emptyDB : Database := ⟨1, [], []⟩

/-- States reachable through every exposed operation, importJSON included:
each step carries the wall clock, which never decreases between
operations; an import step replaces the state with any value that
passes the validation of importJSON and denotes a structured database. -/
inductive Reach : Nat → Database → Prop where
  | init (t : Nat) : Reach t emptyDB
  | stepCreateInv (t t₁ : Nat) (db : Database) (newId : String) (d : InvestigationData) :
      Reach t db → t ≤ t₁ → Reach t₁ (createInvestigation db newId t₁ d)
  | stepUpdateInv (t t₁ : Nat) (db : Database) (id : String) (p : InvestigationPatch) :
      Reach t db → t ≤ t₁ → Reach t₁ (updateInvestigation db id p t₁)
  | stepDeleteInv (t t₁ : Nat) (db : Database) (id : String) :
      Reach t db → t ≤ t₁ → Reach t₁ (deleteInvestigation db id)
  | stepCreateEv (t t₁ : Nat) (db : Database) (invId newId : String) (d : EvidenceData) :
      Reach t db → t ≤ t₁ → Reach t₁ (createEvidence db invId newId t₁ d)
  | stepUpdateEv (t t₁ : Nat) (db : Database) (id : String) (p : EvidencePatch) :
      Reach t db → t ≤ t₁ → Reach t₁ (updateEvidence db id p t₁)
  | stepDeleteEv (t t₁ : Nat) (db : Database) (id : String) :
      Reach t db → t ≤ t₁ → Reach t₁ (deleteEvidence db id)
  | stepAddEntry (t t₁ : Nat) (db : Database) (evidenceId newId : String) (d : EntryData) :
      Reach t db → t ≤ t₁ → Reach t₁ (addEntry db evidenceId d newId t₁)
  | stepImport (t t₁ : Nat) (db db₁ : Database) (v : JValue) :
      Reach t db → t ≤ t₁ → validateImport v = true → jToDb v = some db₁ →
      Reach t₁ db₁

/-- States reachable through the repository operations alone, with the
operation importJSON excluded. -/
inductive ReachCore : Nat → Database → Prop where
  | init (t : Nat) : ReachCore t emptyDB
  | stepCreateInv (t t₁ : Nat) (db : Database) (newId : String) (d : InvestigationData) :
      ReachCore t db → t ≤ t₁ → ReachCore t₁ (createInvestigation db newId t₁ d)
  | stepUpdateInv (t t₁ : Nat) (db : Database) (id : String) (p : InvestigationPatch) :
      ReachCore t db → t ≤ t₁ → ReachCore t₁ (updateInvestigation db id p t₁)
  | stepDeleteInv (t t₁ : Nat) (db : Database) (id : String) :
      ReachCore t db → t ≤ t₁ → ReachCore t₁ (deleteInvestigation db id)
  | stepCreateEv (t t₁ : Nat) (db : Database) (invId newId : String) (d : EvidenceData) :
      ReachCore t db → t ≤ t₁ → ReachCore t₁ (createEvidence db invId newId t₁ d)
  | stepUpdateEv (t t₁ : Nat) (db : Database) (id : String) (p : EvidencePatch) :
      ReachCore t db → t ≤ t₁ → ReachCore t₁ (updateEvidence db id p t₁)
  | stepDeleteEv (t t₁ : Nat) (db : Database) (id : String) :
      ReachCore t db → t ≤ t₁ → ReachCore t₁ (deleteEvidence db id)
  | stepAddEntry (t t₁ : Nat) (db : Database) (evidenceId newId : String) (d : EntryData) :
      ReachCore t db → t ≤ t₁ → ReachCore t₁ (addEntry db evidenceId d newId t₁)

/-! ### Shared helper lemmas -/

/-- A map whose function fixes every element of the list is the identity. -/
theorem map_id_of {α : Type} (f : α → α) :
    ∀ l : List α, (∀ a ∈ l, f a = a) → l.map f = l
  | [], _ => rfl
  | a :: l, h => by
    rw [List.map_cons, h a (List.mem_cons_self a l),
      map_id_of f l (fun b hb => h b (List.mem_cons_of_mem a hb))]

theorem decodeStr_str (s : String) : decodeStr (.str s) = some s := rfl

theorem decodeAttachment_enc (a : Attachment) :
    decodeAttachment (attachmentToJ a) = some a := rfl

theorem decodeList_map {α : Type} (f : JValue → Option α) (g : α → JValue)
    (h : ∀ a, f (g a) = some a) : ∀ l : List α, decodeList f (l.map g) = some l
  | [] => rfl
  | a :: l => by simp only [List.map_cons, decodeList, h a, decodeList_map f g h l]

theorem decodeEntry_enc (en : Entry) : decodeEntry (entryToJ en) = some en := by
  cases en
  simp only [entryToJ, decodeEntry, decodeList_map _ _ decodeAttachment_enc]

theorem decodeUpdatedAt_enc (u : Option Nat) :
    decodeUpdatedAt (updatedAtFields u) = some u := by
  cases u <;> rfl

theorem decodeInvestigation_enc (i : Investigation) :
    decodeInvestigation (investigationToJ i) = some i := by
  cases i with
  | mk id t cn d st tg ca ua =>
    cases ua <;>
    simp only [investigationToJ, updatedAtFields, List.cons_append, List.nil_append,
      decodeInvestigation, decodeList_map _ _ decodeStr_str, decodeUpdatedAt]

theorem decodeEvidence_enc (e : Evidence) : decodeEvidence (evidenceToJ e) = some e := by
  cases e with
  | mk id ii t ty su tg ens ca ua =>
    cases ua <;>
    simp only [evidenceToJ, updatedAtFields, List.cons_append, List.nil_append,
      decodeEvidence, decodeList_map _ _ decodeStr_str, decodeList_map _ _ decodeEntry_enc,
      decodeUpdatedAt]

/-- The JSON encoding of the database is lossless: decoding recovers the
database, field for field. -/
theorem jToDb_dbToJ (db : Database) : jToDb (dbToJ db) = some db := by
  cases db
  simp only [dbToJ, jToDb, decodeList_map _ _ decodeInvestigation_enc,
    decodeList_map _ _ decodeEvidence_enc]

/-- The exported JSON shape always passes the import validation. -/
theorem validateImport_dbToJ (db : Database) : validateImport (dbToJ db) = true := rfl

/-- Quote doubling leaves a string without double quotes unchanged. -/
theorem doubleQuotesList_of_no_quote :
    ∀ l : List Char, (∀ c ∈ l, c ≠ '"') → doubleQuotesList l = l
  | [], _ => rfl
  | c :: l, h => by
    rw [doubleQuotesList, if_neg (h c (List.mem_cons_self c l)),
      doubleQuotesList_of_no_quote l (fun b hb => h b (List.mem_cons_of_mem c hb))]

theorem undoubleList_cons_of_ne (c : Char) (hc : ¬ c = '"') :
    ∀ l : List Char, undoubleList (c :: l) = c :: undoubleList l
  | [] => rfl
  | b :: l => by
    rw [undoubleList]
    simp only [decide_eq_true_eq, hc, decide_False, Bool.false_and, if_neg Bool.false_ne_true]

/-- Collapsing doubled quotes undoes quote doubling: the CSV escaping is
lossless. -/
theorem undoubleList_doubleQuotesList :
    ∀ l : List Char, undoubleList (doubleQuotesList l) = l
  | [] => rfl
  | c :: l => by
    by_cases hc : c = '"'
    · subst hc
      rw [doubleQuotesList, if_pos rfl, undoubleList]
      simp only [decide_True, Bool.and_self, if_true, undoubleList_doubleQuotesList l]
    · rw [doubleQuotesList, if_neg hc]
      cases hdl : doubleQuotesList l with
      | nil =>
        rw [undoubleList]
        have h₂ := undoubleList_doubleQuotesList l
        rw [hdl] at h₂
        rw [← h₂]
        rfl
      | cons b bs =>
        rw [← hdl, undoubleList_cons_of_ne c hc, undoubleList_doubleQuotesList l]

instance : IsTotal Investigation invDescOrder :=
  ⟨fun a b => Nat.le_total (sortKeyInv b) (sortKeyInv a)⟩

instance : IsTrans Investigation invDescOrder :=
  ⟨fun _ _ _ h₁ h₂ => Nat.le_trans h₂ h₁⟩

/-- Lowercasing preserves emptiness. -/
theorem toLowerStr_eq_empty_iff (s : String) : toLowerStr s = "" ↔ s = "" := by
  cases s with
  | mk l =>
    constructor
    · intro h
      have hdata : (toLowerStr (String.mk l)).data = [] := by rw [h]
      simp only [toLowerStr, List.map_eq_nil_iff] at hdata
      rw [hdata]
    · intro h
      rw [h]
      rfl

/-- `isArrOpt` rejects anything that is not an array value. -/
theorem isArrOpt_eq_false_of (o : Option JValue)
    (h : ¬ ∃ xs, o = some (JValue.arr xs)) : isArrOpt o = false := by
  cases o with
  | none => rfl
  | some v => cases v with
    | arr xs => exact absurd ⟨xs, rfl⟩ h
    | null => rfl
    | bool b => rfl
    | num n => rfl
    | str s => rfl
    | obj fs => rfl

/-! ### Claim theorems -/

/-- Claim C1: a confirmed deleteInvestigation(id) produces, in one single
update, a database in which the investigation with that id is removed and
every Evidence whose investigationId equals id is removed, while every
other Investigation and every Evidence with a different investigationId is
left exactly as it was (membership preserved and the survivors form a
sublist of the original, in their original order); the version field is
untouched. -/
theorem deleteInvestigation_cascade (db : Database) (id : String)
    (hid : ∃ i ∈ db.investigations, i.id = id) :
    (∀ i ∈ (deleteInvestigation db id).investigations, i.id ≠ id) ∧
    (∀ i ∈ db.investigations, i.id ≠ id → i ∈ (deleteInvestigation db id).investigations) ∧
    (deleteInvestigation db id).investigations.Sublist db.investigations ∧
    (∀ e ∈ (deleteInvestigation db id).evidence, e.investigationId ≠ id) ∧
    (∀ e ∈ db.evidence, e.investigationId ≠ id → e ∈ (deleteInvestigation db id).evidence) ∧
    (deleteInvestigation db id).evidence.Sublist db.evidence ∧
    (deleteInvestigation db id).version = db.version := by
  clear hid
  refine ⟨?_, ?_, List.filter_sublist _, ?_, ?_, List.filter_sublist _, rfl⟩
  · intro i hi
    have h := (List.mem_filter.1 hi).2
    simpa using h
  · intro i hi hne
    exact List.mem_filter.2 ⟨hi, by simpa using hne⟩
  · intro e he
    have h := (List.mem_filter.1 he).2
    simpa using h
  · intro e he hne
    exact List.mem_filter.2 ⟨he, by simpa using hne⟩

def c1invA : Investigation := ⟨"a", "A", "", "", "Open", [], 0, some 0⟩

def c1invB : Investigation := ⟨"b", "B", "", "", "Open", [], 0, some 0⟩

def c1db : Database :=
  ⟨1, [c1invA, c1invB],
   [⟨"e1", "a", "E1", "Physical", "", [], [], 0, some 0⟩,
    ⟨"e2", "b", "E2", "Physical", "", [], [], 0, some 0⟩]⟩

/-- Witness for C1 at a concrete database with two investigations and one
evidence under each. -/
theorem deleteInvestigation_cascade_witness :
    (∀ i ∈ (deleteInvestigation c1db "a").investigations, i.id ≠ "a") ∧
    (∀ i ∈ c1db.investigations, i.id ≠ "a" → i ∈ (deleteInvestigation c1db "a").investigations) ∧
    (deleteInvestigation c1db "a").investigations.Sublist c1db.investigations ∧
    (∀ e ∈ (deleteInvestigation c1db "a").evidence, e.investigationId ≠ "a") ∧
    (∀ e ∈ c1db.evidence, e.investigationId ≠ "a" → e ∈ (deleteInvestigation c1db "a").evidence) ∧
    (deleteInvestigation c1db "a").evidence.Sublist c1db.evidence ∧
    (deleteInvestigation c1db "a").version = c1db.version :=
  deleteInvestigation_cascade c1db "a" ⟨c1invA, by decide, rfl⟩

/-- Claim C3: updateInvestigation(id, fields) merges the patch into every
investigation whose id matches — patched fields take the patch value,
unpatched fields are unchanged, updatedAt becomes the current time and id
and createdAt are untouched — leaves non-matching records and the evidence
sequence as they were, and is a no-op when no id matches; updateEvidence
behaves symmetrically on the evidence sequence. -/
theorem updateInvestigation_merge (db : Database) (id : String)
    (p : InvestigationPatch) (q : EvidencePatch) (now : Nat) :
    (∀ i ∈ db.investigations, i.id = id →
      (⟨i.id, p.title.getD i.title, p.caseNumber.getD i.caseNumber,
        p.description.getD i.description, p.status.getD i.status, p.tags.getD i.tags,
        i.createdAt, some now⟩ : Investigation)
        ∈ (updateInvestigation db id p now).investigations) ∧
    (∀ i ∈ db.investigations, i.id ≠ id → i ∈ (updateInvestigation db id p now).investigations) ∧
    ((∀ i ∈ db.investigations, i.id ≠ id) → updateInvestigation db id p now = db) ∧
    (updateInvestigation db id p now).evidence = db.evidence ∧
    (∀ e ∈ db.evidence, e.id = id →
      (⟨e.id, e.investigationId, q.title.getD e.title, q.type.getD e.type,
        q.summary.getD e.summary, q.tags.getD e.tags, e.entries, e.createdAt,
        some now⟩ : Evidence) ∈ (updateEvidence db id q now).evidence) ∧
    (∀ e ∈ db.evidence, e.id ≠ id → e ∈ (updateEvidence db id q now).evidence) ∧
    ((∀ e ∈ db.evidence, e.id ≠ id) → updateEvidence db id q now = db) ∧
    (updateEvidence db id q now).investigations = db.investigations := by
  refine ⟨?_, ?_, ?_, rfl, ?_, ?_, ?_, rfl⟩
  · intro i hi hieq
    have h : (if i.id = id then mergeInvestigation i p now else i)
        ∈ (updateInvestigation db id p now).investigations :=
      List.mem_map_of_mem (fun i => if i.id = id then mergeInvestigation i p now else i) hi
    rw [if_pos hieq] at h
    exact h
  · intro i hi hne
    have h : (if i.id = id then mergeInvestigation i p now else i)
        ∈ (updateInvestigation db id p now).investigations :=
      List.mem_map_of_mem (fun i => if i.id = id then mergeInvestigation i p now else i) hi
    rw [if_neg hne] at h
    exact h
  · intro h
    show ({ db with investigations := _ } : Database) = db
    rw [map_id_of _ _ (fun i hi => if_neg (h i hi))]
  · intro e he heq
    have h : (if e.id = id then mergeEvidence e q now else e)
        ∈ (updateEvidence db id q now).evidence :=
      List.mem_map_of_mem (fun e => if e.id = id then mergeEvidence e q now else e) he
    rw [if_pos heq] at h
    exact h
  · intro e he hne
    have h : (if e.id = id then mergeEvidence e q now else e)
        ∈ (updateEvidence db id q now).evidence :=
      List.mem_map_of_mem (fun e => if e.id = id then mergeEvidence e q now else e) he
    rw [if_neg hne] at h
    exact h
  · intro h
    show ({ db with evidence := _ } : Database) = db
    rw [map_id_of _ _ (fun e he => if_neg (h e he))]

def c3inv : Investigation := ⟨"a", "Old", "C1", "D", "Open", ["t"], 3, some 3⟩

def c3db : Database := ⟨1, [c3inv], []⟩

def c3patch : InvestigationPatch := ⟨none, none, none, some "Closed", none⟩

def c3qpatch : EvidencePatch := ⟨none, none, none, none⟩

/-- Witness for C3: closing an investigation at time 9 leaves every other
field as it was, and updating a missing id is a no-op. -/
theorem updateInvestigation_merge_witness :
    (⟨"a", "Old", "C1", "D", "Closed", ["t"], 3, some 9⟩ : Investigation)
      ∈ (updateInvestigation c3db "a" c3patch 9).investigations ∧
    updateInvestigation c3db "zzz" c3patch 9 = c3db :=
  ⟨(updateInvestigation_merge c3db "a" c3patch c3qpatch 9).1 c3inv (by decide) rfl,
   (updateInvestigation_merge c3db "zzz" c3patch c3qpatch 9).2.2.1
     (by intro i hi; rw [show i = c3inv by simpa [c3db] using hi]; decide)⟩

/-- Claim C4: addEntry(evidenceId, fields) prepends a fresh Entry bearing
the current time to the matching Evidence's entries and sets that
Evidence's updatedAt to the same time, leaving every other field and every
other record alone; adding X then Y leaves entries beginning with Y then
X; with no matching id the database is unchanged. -/
theorem addEntry_prepends (db : Database) (evidenceId newId : String)
    (d : EntryData) (now : Nat) :
    (∀ e ∈ db.evidence, e.id = evidenceId →
      (⟨e.id, e.investigationId, e.title, e.type, e.summary, e.tags,
        ⟨newId, d.author, d.body, now, d.attachments⟩ :: e.entries, e.createdAt,
        some now⟩ : Evidence) ∈ (addEntry db evidenceId d newId now).evidence) ∧
    (∀ e ∈ db.evidence, e.id ≠ evidenceId → e ∈ (addEntry db evidenceId d newId now).evidence) ∧
    ((∀ e ∈ db.evidence, e.id ≠ evidenceId) → addEntry db evidenceId d newId now = db) ∧
    (addEntry db evidenceId d newId now).investigations = db.investigations ∧
    (∀ e ∈ db.evidence, e.id = evidenceId →
      ∀ (d₂ : EntryData) (newId₂ : String) (now₂ : Nat),
      (⟨e.id, e.investigationId, e.title, e.type, e.summary, e.tags,
        ⟨newId₂, d₂.author, d₂.body, now₂, d₂.attachments⟩ ::
          ⟨newId, d.author, d.body, now, d.attachments⟩ :: e.entries, e.createdAt,
        some now₂⟩ : Evidence)
        ∈ (addEntry (addEntry db evidenceId d newId now) evidenceId d₂ newId₂ now₂).evidence) := by
  have hstep : ∀ (db₀ : Database) (nid : String) (dd : EntryData) (t : Nat),
      ∀ e ∈ db₀.evidence, e.id = evidenceId →
      (⟨e.id, e.investigationId, e.title, e.type, e.summary, e.tags,
        ⟨nid, dd.author, dd.body, t, dd.attachments⟩ :: e.entries, e.createdAt,
        some t⟩ : Evidence) ∈ (addEntry db₀ evidenceId dd nid t).evidence := by
    intro db₀ nid dd t e he heq
    have h : (if e.id = evidenceId then
        ({ e with entries := ⟨nid, dd.author, dd.body, t, dd.attachments⟩ :: e.entries,
                  updatedAt := some t } : Evidence) else e)
        ∈ (addEntry db₀ evidenceId dd nid t).evidence :=
      List.mem_map_of_mem (fun e => if e.id = evidenceId then
        ({ e with entries := ⟨nid, dd.author, dd.body, t, dd.attachments⟩ :: e.entries,
                  updatedAt := some t } : Evidence) else e) he
    rw [if_pos heq] at h
    exact h
  refine ⟨hstep db newId d now, ?_, ?_, rfl, ?_⟩
  · intro e he hne
    have h : (if e.id = evidenceId then
        ({ e with entries := ⟨newId, d.author, d.body, now, d.attachments⟩ :: e.entries,
                  updatedAt := some now } : Evidence) else e)
        ∈ (addEntry db evidenceId d newId now).evidence :=
      List.mem_map_of_mem (fun e => if e.id = evidenceId then
        ({ e with entries := ⟨newId, d.author, d.body, now, d.attachments⟩ :: e.entries,
                  updatedAt := some now } : Evidence) else e) he
    rw [if_neg hne] at h
    exact h
  · intro h
    show ({ db with evidence := _ } : Database) = db
    rw [map_id_of _ _ (fun e he => if_neg (h e he))]
  · intro e he heq d₂ newId₂ now₂
    exact hstep (addEntry db evidenceId d newId now) newId₂ d₂ now₂ _
      (hstep db newId d now e he heq) heq

def c4ev : Evidence := ⟨"e1", "a", "E", "Physical", "", [], [], 0, some 0⟩

def c4db : Database := ⟨1, [], [c4ev]⟩

def c4X : EntryData := ⟨"AX", "body X", []⟩

def c4Y : EntryData := ⟨"AY", "body Y", []⟩

/-- Witness for C4: adding entry X at time 1 then entry Y at time 2 leaves
the evidence holding entries Y then X, with updatedAt 2; a missing id is a
no-op. -/
theorem addEntry_prepends_witness :
    (⟨"e1", "a", "E", "Physical", "", [],
      [⟨"nY", "AY", "body Y", 2, []⟩, ⟨"nX", "AX", "body X", 1, []⟩], 0,
      some 2⟩ : Evidence)
      ∈ (addEntry (addEntry c4db "e1" c4X "nX" 1) "e1" c4Y "nY" 2).evidence ∧
    addEntry c4db "zzz" c4X "nX" 1 = c4db :=
  ⟨(addEntry_prepends c4db "e1" "nX" c4X 1).2.2.2.2 c4ev (by decide) rfl c4Y "nY" 2,
   (addEntry_prepends c4db "zzz" "nX" c4X 1).2.2.1
     (by intro e he; rw [show e = c4ev by simpa [c4db] using he]; decide)⟩

/-- A record's timestamps are coherent and bounded by the clock. -/
def tsOK (t c : Nat) (u : Option Nat) : Prop := ∃ v, u = some v ∧ c ≤ v ∧ v ≤ t

/-- Every record of the database has coherent timestamps bounded by the
clock. -/
def dbBounded (t : Nat) (db : Database) : Prop :=
  (∀ i ∈ db.investigations, tsOK t i.createdAt i.updatedAt) ∧
  (∀ e ∈ db.evidence, tsOK t e.createdAt e.updatedAt)

theorem tsOK_mono {t t₁ c : Nat} {u : Option Nat} (h : t ≤ t₁) : tsOK t c u → tsOK t₁ c u
  | ⟨v, hv, hc, ht⟩ => ⟨v, hv, hc, Nat.le_trans ht h⟩

/-- Every repository operation preserves timestamp coherence under a
nondecreasing clock. -/
theorem reachCore_bounded {t : Nat} {db : Database} (h : ReachCore t db) :
    dbBounded t db := by
  induction h with
  | init t =>
    exact ⟨fun i hi => absurd hi (List.not_mem_nil i),
           fun e he => absurd he (List.not_mem_nil e)⟩
  | stepCreateInv t t₁ db newId d hr hle ih =>
    refine ⟨fun i hi => ?_, fun e he => tsOK_mono hle (ih.2 e he)⟩
    rcases List.mem_cons.1 hi with h₀ | h₀
    · subst h₀
      exact ⟨t₁, rfl, Nat.le_refl t₁, Nat.le_refl t₁⟩
    · exact tsOK_mono hle (ih.1 i h₀)
  | stepUpdateInv t t₁ db id p hr hle ih =>
    refine ⟨fun i₁ hi₁ => ?_, fun e he => tsOK_mono hle (ih.2 e he)⟩
    rcases List.mem_map.1 hi₁ with ⟨i₀, hi₀, rfl⟩
    by_cases hid : i₀.id = id
    · rw [if_pos hid]
      rcases ih.1 i₀ hi₀ with ⟨v, _, hc, ht⟩
      exact ⟨t₁, rfl, Nat.le_trans hc (Nat.le_trans ht hle), Nat.le_refl t₁⟩
    · rw [if_neg hid]
      exact tsOK_mono hle (ih.1 i₀ hi₀)
  | stepDeleteInv t t₁ db id hr hle ih =>
    exact ⟨fun i hi => tsOK_mono hle (ih.1 i (List.mem_of_mem_filter hi)),
           fun e he => tsOK_mono hle (ih.2 e (List.mem_of_mem_filter he))⟩
  | stepCreateEv t t₁ db invId newId d hr hle ih =>
    refine ⟨fun i hi => tsOK_mono hle (ih.1 i hi), fun e he => ?_⟩
    rcases List.mem_cons.1 he with h₀ | h₀
    · subst h₀
      exact ⟨t₁, rfl, Nat.le_refl t₁, Nat.le_refl t₁⟩
    · exact tsOK_mono hle (ih.2 e h₀)
  | stepUpdateEv t t₁ db id p hr hle ih =>
    refine ⟨fun i hi => tsOK_mono hle (ih.1 i hi), fun e₁ he₁ => ?_⟩
    rcases List.mem_map.1 he₁ with ⟨e₀, he₀, rfl⟩
    by_cases hid : e₀.id = id
    · rw [if_pos hid]
      rcases ih.2 e₀ he₀ with ⟨v, _, hc, ht⟩
      exact ⟨t₁, rfl, Nat.le_trans hc (Nat.le_trans ht hle), Nat.le_refl t₁⟩
    · rw [if_neg hid]
      exact tsOK_mono hle (ih.2 e₀ he₀)
  | stepDeleteEv t t₁ db id hr hle ih =>
    exact ⟨fun i hi => tsOK_mono hle (ih.1 i hi),
           fun e he => tsOK_mono hle (ih.2 e (List.mem_of_mem_filter he))⟩
  | stepAddEntry t t₁ db evidenceId newId d hr hle ih =>
    refine ⟨fun i hi => tsOK_mono hle (ih.1 i hi), fun e₁ he₁ => ?_⟩
    rcases List.mem_map.1 he₁ with ⟨e₀, he₀, rfl⟩
    by_cases hid : e₀.id = evidenceId
    · rw [if_pos hid]
      rcases ih.2 e₀ he₀ with ⟨v, _, hc, ht⟩
      exact ⟨t₁, rfl, Nat.le_trans hc (Nat.le_trans ht hle), Nat.le_refl t₁⟩
    · rw [if_neg hid]
      exact tsOK_mono hle (ih.2 e₀ he₀)

def c5inv : Investigation := ⟨"x", "T", "", "", "Open", [], 1, some 0⟩

def c5db : Database := ⟨1, [c5inv], []⟩

/-- Counterexample to C5 as stated: importJSON performs no per-record
validation, so a state holding an investigation with updatedAt 0 before
createdAt 1 is reachable through the exposed operations (here by importing
the JSON export of such a database into a fresh session). -/
theorem reach_updatedAt_counterexample :
    ∃ db, Reach 1 db ∧
      ∃ i ∈ db.investigations, ¬ ∃ u, i.updatedAt = some u ∧ i.createdAt ≤ u := by
  refine ⟨c5db,
    Reach.stepImport 1 1 emptyDB c5db (dbToJ c5db) (Reach.init 1) (Nat.le_refl 1)
      (validateImport_dbToJ c5db) (jToDb_dbToJ c5db),
    c5inv, by decide, ?_⟩
  rintro ⟨u, hu, hc⟩
  rw [show c5inv.updatedAt = some 0 from rfl] at hu
  injection hu with h
  subst h
  exact absurd hc (by decide)

/-- Claim C5, amended: in every database state reachable through the
repository operations (creation, partial-field update, deletion, entry
append) under a nondecreasing clock, every Investigation and every
Evidence has an updatedAt and it is at least createdAt; JSON import
performs no per-record validation and can introduce records violating
this. -/
theorem reachCore_updatedAt_invariant (t : Nat) (db : Database)
    (h : ReachCore t db) :
    (∀ i ∈ db.investigations, ∃ u, i.updatedAt = some u ∧ i.createdAt ≤ u) ∧
    (∀ e ∈ db.evidence, ∃ u, e.updatedAt = some u ∧ e.createdAt ≤ u) := by
  obtain ⟨h₁, h₂⟩ := reachCore_bounded h
  refine ⟨fun i hi => ?_, fun e he => ?_⟩
  · rcases h₁ i hi with ⟨v, hv, hc, _⟩
    exact ⟨v, hv, hc⟩
  · rcases h₂ e he with ⟨v, hv, hc, _⟩
    exact ⟨v, hv, hc⟩

def c5data : InvestigationData := ⟨"T", "", "", "Open", []⟩

/-- Witness for the amended C5 at the database reached by creating one
investigation at time 5 in a fresh session. -/
theorem reachCore_updatedAt_invariant_witness :
    (∀ i ∈ (createInvestigation emptyDB "a" 5 c5data).investigations,
      ∃ u, i.updatedAt = some u ∧ i.createdAt ≤ u) ∧
    (∀ e ∈ (createInvestigation emptyDB "a" 5 c5data).evidence,
      ∃ u, e.updatedAt = some u ∧ e.createdAt ≤ u) :=
  reachCore_updatedAt_invariant 5 _
    (ReachCore.stepCreateInv 0 5 emptyDB "a" c5data (ReachCore.init 0) (Nat.zero_le 5))

/-- Claim C2: importJSON fails validation — leaving the current database
completely unchanged — whenever the parsed content is not an object or its
investigations or evidence property is not an array; when the parsed
content is an object with both properties arrays, validation passes and
the in-memory database is replaced wholesale by the imported value. -/
theorem importJSON_validation (cur v : JValue) :
    (((¬ ∃ fs, v = JValue.obj fs) ∨ (¬ ∃ xs, jGet v "investigations" = some (JValue.arr xs)) ∨
      (¬ ∃ xs, jGet v "evidence" = some (JValue.arr xs))) →
      validateImport v = false ∧ importJSON cur v = cur) ∧
    ((∃ fs, v = JValue.obj fs) → (∃ xs, jGet v "investigations" = some (JValue.arr xs)) →
      (∃ xs, jGet v "evidence" = some (JValue.arr xs)) →
      validateImport v = true ∧ importJSON cur v = v) := by
  constructor
  · intro hbad
    have hfalse : validateImport v = false := by
      rcases hbad with h | h | h
      · cases v with
        | obj fs => exact absurd ⟨fs, rfl⟩ h
        | null => rfl
        | bool b => simp [validateImport, jTruthy, jTypeofIsObject]
        | num n => simp [validateImport, jTruthy, jTypeofIsObject]
        | str s => simp [validateImport, jTruthy, jTypeofIsObject]
        | arr xs => simp [validateImport, jGet, isArrOpt]
      · simp [validateImport, isArrOpt_eq_false_of _ h]
      · simp [validateImport, isArrOpt_eq_false_of _ h]
    exact ⟨hfalse, by simp [importJSON, hfalse]⟩
  · rintro ⟨fs, rfl⟩ ⟨xs, hx⟩ ⟨ys, hy⟩
    have htrue : validateImport (JValue.obj fs) = true := by
      simp [validateImport, jTruthy, jTypeofIsObject, jGet] at hx hy ⊢
      simp [hx, hy, isArrOpt]
    exact ⟨htrue, by simp [importJSON, htrue]⟩

def c2bad : JValue :=
  .obj [("investigations", .str "not-an-array"), ("evidence", .arr [])]

/-- Witness for C2: importing an object whose investigations property is
the string not-an-array fails validation and leaves the current database
value untouched. -/
theorem importJSON_validation_witness :
    validateImport c2bad = false ∧ importJSON (dbToJ emptyDB) c2bad = dbToJ emptyDB :=
  (importJSON_validation (dbToJ emptyDB) c2bad).1
    (Or.inr (Or.inl (by
      rintro ⟨xs, hxs⟩
      rw [show jGet c2bad "investigations" = some (JValue.str "not-an-array") from rfl] at hxs
      injection hxs with h
      cases h)))

/-- Claim C9: serializing any database with the JSON exporter and then
feeding importJSON the exported content passes validation, replaces the
in-memory value by exactly the exported value, and that value decodes
back to a database deep-equal (field for field) to the original. -/
theorem exportJSON_importJSON_roundtrip (db : Database) (cur : JValue) :
    validateImport (dbToJ db) = true ∧ importJSON cur (dbToJ db) = dbToJ db ∧
    jToDb (dbToJ db) = some db :=
  ⟨validateImport_dbToJ db, by simp [importJSON, validateImport_dbToJ db],
   jToDb_dbToJ db⟩

/-- Claim C10: loadDB performs no shape validation on successfully parsed
content — any slot whose text parses (even to null or a number) is
returned verbatim — and the fresh empty database (version 1, no
investigations, no evidence) is substituted exactly when the slot is
absent or parsing fails, given that the empty text does not parse (the
behaviour of the external JSON.parse). -/
theorem loadDB_spec (parse : String → Option JValue) (slot : Option String)
    (hparse : parse "" = none) :
    (∀ raw v, slot = some raw → parse raw = some v → loadDB parse slot = v) ∧
    ((slot = none ∨ ∃ raw, slot = some raw ∧ parse raw = none) →
      loadDB parse slot = freshDBJ) := by
  constructor
  · rintro raw v rfl hp
    by_cases hraw : raw = ""
    · subst hraw
      rw [hparse] at hp
      cases hp
    · simp [loadDB, if_neg hraw, hp]
  · rintro (rfl | ⟨raw, rfl, hp⟩)
    · rfl
    · by_cases hraw : raw = ""
      · simp [loadDB, hraw]
      · simp [loadDB, if_neg hraw, hp]

/-- Witness for C10: a parse function mapping the four-character text null
to the JSON null makes loadDB return that non-database value verbatim, and
an absent slot yields the fresh empty database. -/
theorem loadDB_spec_witness :
    loadDB (fun s => if s = "null" then some JValue.null else none) (some "null")
      = JValue.null ∧
    loadDB (fun s => if s = "null" then some JValue.null else none) none = freshDBJ :=
  ⟨(loadDB_spec (fun s => if s = "null" then some JValue.null else none)
      (some "null") rfl).1 "null" JValue.null rfl rfl,
   (loadDB_spec (fun s => if s = "null" then some JValue.null else none)
      none rfl).2 (Or.inl rfl)⟩

/-- Claim C7: the CSV encoder emits a field wrapped in double quotes with
each internal double quote doubled exactly when the field contains a
comma, a double quote or a newline — the doubling being lossless, so the
original text is recoverable from between the quotes — and otherwise
emits the field text raw and unquoted. -/
theorem csvSafe_spec (s : String) :
    ((¬ ∃ c ∈ s.data, c = ',' ∨ c = '"' ∨ c = '\n') → csvSafe s = s) ∧
    ((∃ c ∈ s.data, c = ',' ∨ c = '"' ∨ c = '\n') →
      ∃ mid : String, csvSafe s = "\"" ++ mid ++ "\"" ∧
        undoubleList mid.data = s.data) := by
  have hnq : needsQuotes s = true ↔ ∃ c ∈ s.data, c = ',' ∨ c = '"' ∨ c = '\n' := by
    simp only [needsQuotes, List.any_eq_true, Bool.or_eq_true, decide_eq_true_eq]
    constructor
    · rintro ⟨c, hc, h⟩
      exact ⟨c, hc, by tauto⟩
    · rintro ⟨c, hc, h⟩
      exact ⟨c, hc, by tauto⟩
  constructor
  · intro h
    have hfalse : needsQuotes s = false := by
      cases h₀ : needsQuotes s with
      | false => rfl
      | true => exact absurd (hnq.1 h₀) h
    have hnoq : ∀ c ∈ s.data, c ≠ '"' :=
      fun c hc hq => h ⟨c, hc, Or.inr (Or.inl hq)⟩
    show (let out := String.mk (doubleQuotesList s.data)
          if needsQuotes s then "\"" ++ out ++ "\"" else out) = s
    rw [doubleQuotesList_of_no_quote _ hnoq, hfalse]
    rfl
  · intro h
    refine ⟨String.mk (doubleQuotesList s.data), ?_, undoubleList_doubleQuotesList s.data⟩
    show (let out := String.mk (doubleQuotesList s.data)
          if needsQuotes s then "\"" ++ out ++ "\"" else out) =
      "\"" ++ String.mk (doubleQuotesList s.data) ++ "\""
    rw [hnq.2 h]
    rfl

/-- Witness for C7: the body hello-comma-world is emitted quoted with its
text recoverable, and the body plain is emitted raw and unquoted. -/
theorem csvSafe_spec_witness :
    csvSafe "plain" = "plain" ∧
    ∃ mid : String, csvSafe "hello, world" = "\"" ++ mid ++ "\"" ∧
      undoubleList mid.data = "hello, world".data :=
  ⟨(csvSafe_spec "plain").1 (by decide), (csvSafe_spec "hello, world").2 (by decide)⟩

/-- The status filter condition, stated as a proposition. -/
theorem matchesStatus_iff (sf : String) (i : Investigation) :
    matchesStatus sf i = true ↔ (sf = "All" ∨ i.status = sf) := by
  by_cases h : sf = "All" <;> simp [matchesStatus, h]

/-- A string's character list is empty only for the empty string. -/
theorem data_eq_nil_iff (s : String) : s.data = [] ↔ s = "" := by
  cases s with
  | mk l =>
    constructor
    · intro h
      rw [show String.mk l = String.mk [] from congrArg String.mk h]
    · intro h
      rw [h]

/-- The query filter condition, stated as a proposition: an empty query
matches everything, and a nonempty query matches when some of title,
caseNumber, description or a tag contains it case-insensitively. -/
theorem matchesQuery_iff (q : String) (i : Investigation) :
    matchesQuery q i = true ↔
      (q = "" ∨ ∃ f ∈ [i.title, i.caseNumber, i.description] ++ i.tags,
        (toLowerStr q).data <:+: (toLowerStr f).data) := by
  by_cases hq : q = ""
  · subst hq
    constructor
    · intro _
      exact Or.inl rfl
    · intro _
      rfl
  · have hq' : ¬ toLowerStr q = "" := fun h => hq ((toLowerStr_eq_empty_iff q).1 h)
    have hqd : (toLowerStr q).data ≠ [] :=
      fun h => hq' ((data_eq_nil_iff (toLowerStr q)).1 h)
    have key : ∀ l : List String,
        (l.filter (fun f => !f.isEmpty)).any
            (fun f => containsSub (toLowerStr f) (toLowerStr q)) = true ↔
          ∃ f ∈ l, (toLowerStr q).data <:+: (toLowerStr f).data := by
      intro l
      rw [List.any_eq_true]
      constructor
      · rintro ⟨f, hf, hc⟩
        exact ⟨f, List.mem_of_mem_filter hf, by simpa [containsSub] using hc⟩
      · rintro ⟨f, hf, hsub⟩
        refine ⟨f, List.mem_filter.2 ⟨hf, ?_⟩, by simpa [containsSub] using hsub⟩
        rw [Bool.not_eq_true']
        cases hfe : f.isEmpty with
        | false => rfl
        | true =>
          exfalso
          apply hqd
          have hd : (toLowerStr f).data = [] := by
            rw [(toLowerStr_eq_empty_iff f).2 ((String.isEmpty_iff f).1 hfe)]
          rw [hd] at hsub
          exact List.infix_nil.1 hsub
    have hshow : matchesQuery q i =
        (([i.title, i.caseNumber, i.description] ++ i.tags).filter
          (fun f => !f.isEmpty)).any (fun f => containsSub (toLowerStr f) (toLowerStr q)) := by
      rw [matchesQuery]
      exact if_neg hq'
    rw [hshow, key]
    constructor
    · intro hx
      exact Or.inr hx
    · rintro (h | hx)
      · exact absurd h hq
      · exact hx

/-- The key by which the claim orders the list: updatedAt when present,
otherwise createdAt. -/
def claimSortKey (i : Investigation) : Nat := i.updatedAt.getD i.createdAt

def c6A : Investigation := ⟨"a", "Alpha", "", "", "Open", [], 5, some 0⟩

def c6B : Investigation := ⟨"b", "Beta", "", "", "Open", [], 0, some 3⟩

def c6db : Database := ⟨1, [c6A, c6B], []⟩

/-- Counterexample to C6 as stated: JavaScript `updatedAt || createdAt`
falls back to createdAt when updatedAt is 0, not only when it is absent,
so with updatedAt 0 and createdAt 5 the code sorts by 5 where the claim
says 0: the emitted order is not descending in the claimed key. -/
theorem filteredInvestigations_counterexample :
    filteredInvestigations c6db "All" "" = [c6A, c6B] ∧
    claimSortKey c6A < claimSortKey c6B ∧
    ¬ (filteredInvestigations c6db "All" "").Pairwise
        (fun a b => claimSortKey b ≤ claimSortKey a) := by
  refine ⟨by decide, by decide, ?_⟩
  intro hp
  rw [show filteredInvestigations c6db "All" "" = [c6A, c6B] from by decide] at hp
  have h := (List.pairwise_cons.1 hp).1 c6B (List.mem_singleton.2 rfl)
  exact absurd h (by decide)

/-- Claim C6, amended: the filtered investigation list contains exactly
the investigations whose status equals the filter exactly (or all of them
when the filter is the sentinel All) and whose title, caseNumber,
description or some tag contains the query case-insensitively (every
investigation matches the empty query), ordered descending by updatedAt
with createdAt used as the sort key when updatedAt is absent or equal to
0 (JavaScript falsiness of the stored value). -/
theorem filteredInvestigations_spec (db : Database) (sf q : String) :
    (∀ i, i ∈ filteredInvestigations db sf q ↔
      (i ∈ db.investigations ∧ (sf = "All" ∨ i.status = sf) ∧
        (q = "" ∨ ∃ f ∈ [i.title, i.caseNumber, i.description] ++ i.tags,
          (toLowerStr q).data <:+: (toLowerStr f).data))) ∧
    (filteredInvestigations db sf q).Pairwise invDescOrder := by
  constructor
  · intro i
    rw [filteredInvestigations, List.mem_insertionSort, List.mem_filter,
      List.mem_filter, and_assoc, matchesStatus_iff, matchesQuery_iff]
  · exact List.sorted_insertionSort invDescOrder _

/-- The attachments cell as the claim states it: plain label-colon-url
pairs joined by a pipe. -/
def claimAttachmentCell (en : Entry) : String :=
  String.intercalate " | " (en.attachments.map (fun a => a.label ++ ":" ++ a.url))

def c8entry : Entry := ⟨"en1", "A", "b", 0, [⟨"", "u"⟩]⟩

def c8ev : Evidence := ⟨"e1", "missing", "Ev", "Physical", "", [], [c8entry], 0, some 1⟩

def c8db : Database := ⟨1, [], [c8ev]⟩

/-- Counterexample to C8 as stated: for an attachment whose label is
empty, the code renders the word link before the colon rather than the
claimed label text, so the attachments column differs from the
label-colon-url rendering. -/
theorem exportRows_counterexample :
    exportRows (fun _ => "T") c8db =
      [headerRow, ["", "", "", "", "Ev", "Physical", "", "T", "A", "b", "link:u"]] ∧
    claimAttachmentCell c8entry = ":u" ∧
    attachmentCell c8entry = "link:u" ∧
    ("link:u" : String) ≠ ":u" :=
  ⟨by decide, by decide, by decide, by decide⟩

/-- Claim C8, amended: exportCSV produces a header row followed by exactly
one data row per Entry (zero-entry Evidence and Investigations contribute
no rows); each data row joins the Entry's ancestor Evidence and
Investigation fields in the specified column order, the attachments
column being the entry's label-colon-url pairs joined by a pipe with an
empty label rendered as the word link; when the parent Evidence's
investigationId resolves to no live Investigation the four
investigation-derived columns are empty strings and the row is still
emitted. -/
theorem exportRows_spec (toISO : Nat → String) (db : Database) :
    (exportRows toISO db).length = 1 + (db.evidence.map (fun e => e.entries.length)).sum ∧
    (exportRows toISO db).head? = some headerRow ∧
    (∀ ev ∈ db.evidence, ∀ en ∈ ev.entries,
      (db.investigations.find? (fun i => i.id = ev.investigationId) = none →
        ["", "", "", "", ev.title, ev.type, String.intercalate ";" ev.tags,
         toISO en.timestamp, en.author, en.body,
         String.intercalate " | " (en.attachments.map
           (fun a => (if a.label = "" then "link" else a.label) ++ ":" ++ a.url))]
          ∈ (exportRows toISO db).tail) ∧
      (∀ inv, db.investigations.find? (fun i => i.id = ev.investigationId) = some inv →
        [inv.caseNumber, inv.title, inv.status, String.intercalate ";" inv.tags,
         ev.title, ev.type, String.intercalate ";" ev.tags, toISO en.timestamp,
         en.author, en.body,
         String.intercalate " | " (en.attachments.map
           (fun a => (if a.label = "" then "link" else a.label) ++ ":" ++ a.url))]
          ∈ (exportRows toISO db).tail)) := by
  refine ⟨?_, rfl, ?_⟩
  · simp [exportRows, List.length_flatMap, Function.comp_def, List.length_map,
      Nat.add_comm]
  · intro ev hev en hen
    constructor
    · intro hnone
      show _ ∈ List.tail (headerRow :: _)
      rw [List.tail_cons]
      refine List.mem_flatMap.2 ⟨ev, hev, ?_⟩
      rw [hnone]
      exact List.mem_map_of_mem _ hen
    · intro inv hinv
      show _ ∈ List.tail (headerRow :: _)
      rw [List.tail_cons]
      refine List.mem_flatMap.2 ⟨ev, hev, ?_⟩
      rw [hinv]
      exact List.mem_map_of_mem _ hen

/-- Witness for the amended C8: an entry whose Evidence points at a
missing investigation still yields a row, with empty investigation
columns and the blank attachment label rendered as link. -/
theorem exportRows_spec_witness :
    ["", "", "", "", "Ev", "Physical", "", "T", "A", "b", "link:u"]
      ∈ (exportRows (fun _ => "T") c8db).tail ∧
    (exportRows (fun _ => "T") c8db).length = 1 + 1 :=
  ⟨((exportRows_spec (fun _ => "T") c8db).2.2 c8ev (by decide) c8entry
      (by decide)).1 rfl,
   (exportRows_spec (fun _ => "T") c8db).1⟩

end EvidenceDB
